import Mathlib

/-!
Verification of the streaming XLSX writer specification against the
repository.  The repository's own source under version control here
contains the `FileSharing` record (embedded below as `FileSharing`)
and the conformance test-suite of the streaming writer; the streaming
writer implementation itself (stream builder, stream writer, style
registry, cell type system) is not present, so those components are
modelled from the specification, as noted on each definition.
-/

/-! ### XML text escaping

Modelled from the spec: raw cell text that looks like XML markup must be
escaped so it cannot be misinterpreted as document structure (§4.4 edge
cases).  Cell text is escaped entity-by-entity; the reader collaborator
unescapes it. -/

/-- Escape a single character as XML text. -/
def escChar (c : Char) : List Char :=
  if c = '&' then ['&', 'a', 'm', 'p', ';']
  else if c = '<' then ['&', 'l', 't', ';']
  else if c = '>' then ['&', 'g', 't', ';']
  else if c = '"' then ['&', 'q', 'u', 'o', 't', ';']
  else if c = '\'' then ['&', 'a', 'p', 'o', 's', ';']
  else [c]

/-- Escape a character list as XML text. -/
def escList : List Char → List Char
  | [] => []
  | c :: l => escChar c ++ escList l

/-- Decode XML text entities back to plain characters.  The first argument
is recursion fuel; each step consumes at least one character, so fuel equal
to the input length is always sufficient. -/
def unescCore : Nat → List Char → List Char
  | 0, l => l
  | _ + 1, [] => []
  | fuel + 1, c :: rest =>
    if c = '&' then
      if rest.take 4 = ['a', 'm', 'p', ';'] then '&' :: unescCore fuel (rest.drop 4)
      else if rest.take 3 = ['l', 't', ';'] then '<' :: unescCore fuel (rest.drop 3)
      else if rest.take 3 = ['g', 't', ';'] then '>' :: unescCore fuel (rest.drop 3)
      else if rest.take 5 = ['q', 'u', 'o', 't', ';'] then '"' :: unescCore fuel (rest.drop 5)
      else if rest.take 5 = ['a', 'p', 'o', 's', ';'] then '\'' :: unescCore fuel (rest.drop 5)
      else c :: unescCore fuel rest
    else c :: unescCore fuel rest

/-- Escape a string for inclusion in XML text. -/
def escapeXml (s : String) : String := ⟨escList s.data⟩

/-- Decode XML-escaped text back to the raw string. -/
def unescapeXml (s : String) : String := ⟨unescCore s.data.length s.data⟩

theorem length_le_escList (l : List Char) : l.length ≤ (escList l).length := by
  induction l with
  | nil => simp [escList]
  | cons c l ih =>
    have hc : 1 ≤ (escChar c).length := by
      by_cases h1 : c = '&' <;> by_cases h2 : c = '<' <;> by_cases h3 : c = '>' <;>
        by_cases h4 : c = '"' <;> by_cases h5 : c = '\'' <;>
        simp [escChar, h1, h2, h3, h4, h5]
    simp only [escList, List.length_append, List.length_cons]
    omega

theorem unescCore_escList (l : List Char) :
    ∀ fuel, l.length ≤ fuel → unescCore fuel (escList l) = l := by
  induction l with
  | nil => intro fuel _; cases fuel <;> rfl
  | cons c l ih =>
    intro fuel hfuel
    match fuel, hfuel with
    | f + 1, hfuel =>
      have hf : l.length ≤ f := by simpa using hfuel
      show unescCore (f + 1) (escChar c ++ escList l) = c :: l
      by_cases h1 : c = '&'
      · subst h1
        show unescCore (f + 1) ('&' :: 'a' :: 'm' :: 'p' :: ';' :: escList l) = _
        simp [unescCore, ih f hf]
      · by_cases h2 : c = '<'
        · subst h2
          show unescCore (f + 1) ('&' :: 'l' :: 't' :: ';' :: escList l) = _
          simp [unescCore, ih f hf]
        · by_cases h3 : c = '>'
          · subst h3
            show unescCore (f + 1) ('&' :: 'g' :: 't' :: ';' :: escList l) = _
            simp [unescCore, ih f hf]
          · by_cases h4 : c = '"'
            · subst h4
              show unescCore (f + 1) ('&' :: 'q' :: 'u' :: 'o' :: 't' :: ';' :: escList l) = _
              simp [unescCore, ih f hf]
            · by_cases h5 : c = '\''
              · subst h5
                show unescCore (f + 1) ('&' :: 'a' :: 'p' :: 'o' :: 's' :: ';' :: escList l) = _
                simp [unescCore, ih f hf]
              · have he : escChar c = [c] := by simp [escChar, h1, h2, h3, h4, h5]
                rw [he]
                show unescCore (f + 1) (c :: escList l) = c :: l
                simp [unescCore, h1, ih f hf]

theorem unescape_escape (s : String) : unescapeXml (escapeXml s) = s := by
  cases s with
  | mk data =>
    simp only [unescapeXml, escapeXml]
    rw [unescCore_escList data _ (length_le_escList data)]

/-! ### Cell Type System

Modelled from the spec (§4.1): a closed variant of cell kinds, and the pure
per-cell function from (declared hint, raw value) to the effective
(cell type, rendered text).  Column-level typing is a hint; a value that
fails to parse under a declared non-string type falls back to an
inline string for that cell alone. -/

/-- Modelled from the spec: the closed variant of cell kinds (§3 CellType). -/
inductive CellType
  | inline
  | str
  | numeric
  | integer
  | decimal
  | date
  | boolean
  | err
deriving DecidableEq

/-- Modelled from the spec: the (CellType, number-format) pair attached to a
column registration (§3 Formatting Descriptor / StreamingCellMetadata). -/
structure StreamingCellMetadata where
  cellType : CellType
  numFmt : String
deriving DecidableEq

/-- Built-in preset: inline/plain string column. -/
def DefaultStringStreamingCellMetadata : StreamingCellMetadata := ⟨CellType.str, "general"⟩

/-- Built-in preset: integer column. -/
def DefaultIntegerStreamingCellMetadata : StreamingCellMetadata := ⟨CellType.integer, "0"⟩

/-- Built-in preset: fixed two-decimal-place column. -/
def DefaultDecimalStreamingCellMetadata : StreamingCellMetadata := ⟨CellType.decimal, "0.00"⟩

/-- Built-in preset: date column. -/
def DefaultDateStreamingCellMetadata : StreamingCellMetadata := ⟨CellType.date, "mm-dd-yy"⟩

/-- Modelled from the spec: per-column typing information given at sheet
registration: nothing (infer per cell), an explicit CellType, or a
StreamingCellMetadata descriptor. -/
inductive CellHint
  | infer
  | ctype (t : CellType)
  | meta (m : StreamingCellMetadata)
deriving DecidableEq

/-- Lift the explicit-CellType registration mode into a hint. -/
def CellHint.ofCT : Option CellType → CellHint
  | none => .infer
  | some t => .ctype t

/-- Lift the column-metadata registration mode into a hint. -/
def CellHint.ofMeta : Option StreamingCellMetadata → CellHint
  | none => .infer
  | some m => .meta m

/-- Modelled from the spec: decimal-number grammar used to decide whether a
raw value "parses as a number" — optional minus sign, a nonempty run of
digits, optionally followed by a dot and a nonempty run of digits. -/
def isNumericCore (l : List Char) : Bool :=
  (l.takeWhile Char.isDigit).length > 0 &&
    (match l.dropWhile Char.isDigit with
     | [] => true
     | '.' :: fr => fr.length > 0 && fr.all Char.isDigit
     | _ => false)

/-- Whether a raw value parses as a number (§4.1 inference and Decimal rule). -/
def isNumericString (s : String) : Bool :=
  match s.data with
  | '-' :: rest => isNumericCore rest
  | l => isNumericCore l

/-- Modelled from the spec: integer grammar — optional minus sign and a
nonempty run of digits (§4.1 Integer rule). -/
def isIntString (s : String) : Bool :=
  match s.data with
  | '-' :: rest => rest.length > 0 && rest.all Char.isDigit
  | l => l.length > 0 && l.all Char.isDigit

/-- Modelled from the spec: re-render a numeric text with the fixed
two-decimal-place number format (§4.1 "Numeric rendering"): keep sign and
integer digits, pad or cut the fraction to exactly two digits. -/
def renderFixed2 (s : String) : String :=
  let p := match s.data with
    | '-' :: r => (['-'], r)
    | l => (([] : List Char), l)
  let intPart := p.2.takeWhile Char.isDigit
  let fracPart := match p.2.dropWhile Char.isDigit with
    | '.' :: fr => fr
    | _ => []
  ⟨p.1 ++ intPart ++ '.' :: (fracPart ++ ['0', '0']).take 2⟩

/-- Modelled from the spec (§4.1): the effective (cell type, rendered text)
of one cell, as a pure function of its declared hint and raw value. -/
def renderCell : CellHint → String → CellType × String
  | .infer, v => if isNumericString v then (.numeric, v) else (.inline, v)
  | .ctype t, v =>
    match t with
    | .str => (.inline, v)
    | t' => (t', v)
  | .meta m, v =>
    match m.cellType with
    | .str => (.inline, v)
    | .inline => (.inline, v)
    | .integer => if isIntString v then (.numeric, v) else (.inline, v)
    | .decimal => if isNumericString v then (.numeric, renderFixed2 v) else (.inline, v)
    | .date => if isNumericString v then (.date, v) else (.inline, v)
    | .numeric => if isNumericString v then (.numeric, v) else (.inline, v)
    | .boolean => (.inline, v)
    | .err => (.inline, v)

/-- Modelled from the spec: render a whole row; cell `i` uses column hint `i`
(columns beyond the declared metadata are inferred). -/
def renderRow : List CellHint → List String → List (CellType × String)
  | _, [] => []
  | hints, v :: vs => renderCell (hints.headD .infer) v :: renderRow hints.tail vs

/-! ### Style Registry

Modelled from the spec (§4.2): a deduplicating, append-only mapping from
formatting descriptor to style ID, seeded with a fixed baseline of built-in
styles.  IDs are assigned in strict first-seen order starting at the
baseline; entries are never removed or renumbered. -/

/-- A formatting descriptor: the (cell type, number-format) pair (§3). -/
abbrev Descriptor := CellType × String

/-- Modelled from the spec: the count of built-in styles reserved before any
document-specific descriptor (baseline = 1 built-in style in this design). -/
def initMaxStyleId : Nat := 1

/-- Index of the first occurrence of a descriptor in the entry list. -/
def firstIdx : List Descriptor → Descriptor → Option Nat
  | [], _ => none
  | e :: es, d => if e = d then some 0 else (firstIdx es d).map (· + 1)

/-- Modelled from the spec: the style registry state — the baseline and the
entries in first-seen order. -/
structure StyleRegistry where
  baseline : Nat
  entries : List Descriptor
deriving DecidableEq

/-- The registry as seeded at document creation. -/
def StyleRegistry.init : StyleRegistry := ⟨initMaxStyleId, []⟩

/-- Modelled from the spec: `ensure(descriptor) -> styleID` — return the
existing ID for a previously seen descriptor, or assign the next sequential
integer (baseline + count of distinct descriptors already assigned) and
record it. -/
def StyleRegistry.ensure (r : StyleRegistry) (d : Descriptor) : Nat × StyleRegistry :=
  match firstIdx r.entries d with
  | some i => (r.baseline + i, r)
  | none => (r.baseline + r.entries.length, ⟨r.baseline, r.entries ++ [d]⟩)

/-- Run `ensure` over a whole sequence of descriptors, keeping the state. -/
def ensureAll (r : StyleRegistry) : List Descriptor → StyleRegistry
  | [] => r
  | d :: ds => ensureAll (r.ensure d).2 ds

/-- The finalized style table's entry count: baseline plus recorded entries. -/
def styleCount (r : StyleRegistry) : Nat := r.baseline + r.entries.length

/-! ### Stream Builder and Stream Writer

Modelled from the spec (§4.3, §4.4): the builder validates sheet
registrations (unique names, post-build lock) and produces the forward-only
writer; the writer accepts rows for the current sheet, advances to the next
registered sheet, records merge ranges, and finalizes the document on close.
Style-table bookkeeping is modelled separately by `StyleRegistry`. -/

/-- Modelled from the spec: the error surface returned to callers (§6). -/
inductive StreamError
  | duplicateSheetName (name : String)
  | builderAlreadyBuilt
  | alreadyOnLastSheet
  | wrongColumnCount
  | alreadyClosed
deriving DecidableEq

/-- A sheet registration: name and per-column typing hints. -/
abbrev SheetReg := String × List CellHint

/-- Modelled from the spec (§3 Sheet Stream State): per-sheet streaming
state — the established column count (none until the first row is written),
the rendered rows, and the recorded merge-cell ranges. -/
structure SheetState where
  colCount : Option Nat
  rows : List (List (CellType × String))
  mergeCells : List String
deriving DecidableEq

/-- The state of a sheet before any row is written to it. -/
def SheetState.init : SheetState := ⟨none, [], []⟩

/-- Modelled from the spec (§4.3): the stream builder — the registration
list, the one-shot Built flag, and the bytes emitted to the sink so far
(registration never emits bytes). -/
structure StreamFileBuilder where
  regs : List SheetReg
  built : Bool
  emitted : List String
deriving DecidableEq

/-- A fresh builder over an empty sink. -/
def StreamFileBuilder.init : StreamFileBuilder := ⟨[], false, []⟩

/-- Modelled from the spec (§4.3): register a sheet; fails on a duplicate
name (case-sensitive) or after `build`.  No bytes are emitted either way. -/
def StreamFileBuilder.addSheet (b : StreamFileBuilder) (name : String)
    (hints : List CellHint) : Except StreamError StreamFileBuilder :=
  if b.built then .error .builderAlreadyBuilt
  else if name ∈ b.regs.map Prod.fst then .error (.duplicateSheetName name)
  else .ok { b with regs := b.regs ++ [(name, hints)] }

/-- Modelled from the spec (§4.4): the forward-only stream writer.  `done`
holds the sheets already streamed past (immutable), `rest` holds the current
sheet (head) and the upcoming registered sheets, in registration order. -/
structure StreamFile where
  done : List (String × SheetState)
  rest : List (SheetReg × SheetState)
  closed : Bool
deriving DecidableEq

/-- Modelled from the spec (§4.3): lock the registrations and produce the
writer positioned on the first registered sheet; one-shot. -/
def StreamFileBuilder.build (b : StreamFileBuilder) :
    Except StreamError (StreamFile × StreamFileBuilder) :=
  if b.built then .error .builderAlreadyBuilt
  else .ok (⟨[], b.regs.map (fun r => (r, SheetState.init)), false⟩,
            { b with built := true })

/-- Modelled from the spec (§4.4 write): the first row written to the
current sheet establishes its column count; afterwards a row's length must
equal that count exactly, else the whole operation fails with
WrongColumnCount and nothing is appended.  (The empty `rest` branch is
unreachable for writers produced by `build` over at least one registered
sheet.) -/
def StreamFile.write (w : StreamFile) (row : List String) :
    Except StreamError StreamFile :=
  if w.closed then .error .alreadyClosed
  else
    match w.rest with
    | [] => .error .alreadyOnLastSheet
    | (reg, st) :: tail =>
      match st.colCount with
      | none =>
        .ok ⟨w.done,
             (reg, ⟨some row.length, st.rows ++ [renderRow reg.2 row], st.mergeCells⟩) :: tail,
             false⟩
      | some n =>
        if row.length = n then
          .ok ⟨w.done,
               (reg, ⟨some n, st.rows ++ [renderRow reg.2 row], st.mergeCells⟩) :: tail,
               false⟩
        else .error .wrongColumnCount

/-- Modelled from the spec (§4.4 nextSheet): advance the current-sheet
pointer forward by one registered sheet; fails with AlreadyOnLastSheet when
already on the last one.  The sheet moved past becomes immutable. -/
def StreamFile.nextSheet (w : StreamFile) : Except StreamError StreamFile :=
  if w.closed then .error .alreadyClosed
  else
    match w.rest with
    | [] => .error .alreadyOnLastSheet
    | [_] => .error .alreadyOnLastSheet
    | (reg, st) :: next :: tail => .ok ⟨w.done ++ [(reg.1, st)], next :: tail, false⟩

/-- Convert a zero-based column index to spreadsheet column letters, using
fuel (the index itself suffices, since the quotient shrinks every step). -/
def colLettersCore : Nat → Nat → List Char
  | 0, n => [Char.ofNat (65 + n % 26)]
  | fuel + 1, n =>
    if n < 26 then [Char.ofNat (65 + n)]
    else colLettersCore fuel (n / 26 - 1) ++ [Char.ofNat (65 + n % 26)]

/-- Zero-based column index to column letters (0 → "A", 1 → "B", 26 → "AA"). -/
def colLetters (n : Nat) : String := ⟨colLettersCore n n⟩

/-- Zero-based (row, column) to a one-based letter-encoded cell reference. -/
def cellRef (row col : Nat) : String := colLetters col ++ toString (row + 1)

/-- Modelled from the spec (§4.4 addMergeCells): a zero-based inclusive
range rendered as a spreadsheet-style cell-range reference. -/
def mergeRangeRef (rowFrom colFrom rowTo colTo : Nat) : String :=
  cellRef rowFrom colFrom ++ ":" ++ cellRef rowTo colTo

/-- Modelled from the spec (§4.4 addMergeCells): append a merge range to the
current sheet's state, with no validation against written rows. -/
def StreamFile.addMergeCells (w : StreamFile) (rowFrom colFrom rowTo colTo : Nat) :
    StreamFile :=
  match w.rest with
  | [] => w
  | (reg, st) :: tail =>
    ⟨w.done,
     (reg, ⟨st.colCount, st.rows, st.mergeCells ++ [mergeRangeRef rowFrom colFrom rowTo colTo]⟩) :: tail,
     w.closed⟩

/-- Modelled from the spec (§2, §4.5): the finalized compound document,
reduced to the parts the round-trip contract observes — per sheet, its name
and its rows of (cell type, XML-escaped cell text). -/
structure Document where
  sheets : List (String × List (List (CellType × String)))
deriving DecidableEq

/-- All sheets of a writer in registration order: streamed-past ones first,
then the current and upcoming ones. -/
def StreamFile.allSheets (w : StreamFile) : List (String × SheetState) :=
  w.done ++ w.rest.map (fun p => (p.1.1, p.2))

/-- XML-escape every cell of every row of a sheet body. -/
def escRows (rows : List (List (CellType × String))) : List (List (CellType × String)) :=
  rows.map (fun r => r.map (fun c => (c.1, escapeXml c.2)))

/-- Modelled from the spec (§4.4 close): finalize the document — every
registered sheet appears under its name in registration order, sheets never
written to getting an empty body — and forbid further use of the writer.
Closing twice is an error. -/
def StreamFile.close (w : StreamFile) : Except StreamError (Document × StreamFile) :=
  if w.closed then .error .alreadyClosed
  else .ok (⟨w.allSheets.map (fun p => (p.1, escRows p.2.rows))⟩,
            ⟨w.allSheets, [], true⟩)

/-! ### The reader collaborator (§6)

Reading the produced document recovers, per sheet, the name, the ordered
cell values (unescaped), and each cell's effective type. -/

/-- Sheet names recovered by the reader, in document order. -/
def docSheetNames (d : Document) : List String := d.sheets.map Prod.fst

/-- Cell values recovered by the reader: XML text decoded back to raw text. -/
def docValues (d : Document) : List (List (List String)) :=
  d.sheets.map (fun s => s.2.map (fun r => r.map (fun c => unescapeXml c.2)))

/-- Cell types recovered by the reader. -/
def docTypes (d : Document) : List (List (List CellType)) :=
  d.sheets.map (fun s => s.2.map (fun r => r.map Prod.fst))

/-! ### The test-suite driver pipeline

These mirror the conformance suite's `writeStreamFile` /
`writeStreamFileWithDefaultMetadata` drivers: register all sheets, build,
write each sheet's rows advancing between sheets, then close. -/

/-- Register a list of sheets in order, stopping at the first failure. -/
def registerSheets (b : StreamFileBuilder) : List SheetReg → Except StreamError StreamFileBuilder
  | [] => .ok b
  | r :: rs =>
    match b.addSheet r.1 r.2 with
    | .error e => .error e
    | .ok b' => registerSheets b' rs

/-- Write a list of rows to the current sheet, stopping at the first failure. -/
def writeRows (w : StreamFile) : List (List String) → Except StreamError StreamFile
  | [] => .ok w
  | row :: rows =>
    match w.write row with
    | .error e => .error e
    | .ok w' => writeRows w' rows

/-- For each remaining sheet's data: advance to it, then write its rows. -/
def writeRest (w : StreamFile) : List (List (List String)) → Except StreamError StreamFile
  | [] => .ok w
  | rows :: ds =>
    match w.nextSheet with
    | .error e => .error e
    | .ok w1 =>
      match writeRows w1 rows with
      | .error e => .error e
      | .ok w2 => writeRest w2 ds

/-- Write every sheet's data: the first sheet is already current. -/
def writeAll (w : StreamFile) : List (List (List String)) → Except StreamError StreamFile
  | [] => .ok w
  | rows :: ds =>
    match writeRows w rows with
    | .error e => .error e
    | .ok w1 => writeRest w1 ds

/-- The full pipeline: register, build, stream every sheet's rows, close. -/
def writeWorkbook (regs : List SheetReg) (data : List (List (List String))) :
    Except StreamError Document :=
  match registerSheets .init regs with
  | .error e => .error e
  | .ok b =>
    match b.build with
    | .error e => .error e
    | .ok (w, _) =>
      match writeAll w data with
      | .error e => .error e
      | .ok w' =>
        match w'.close with
        | .error e => .error e
        | .ok (doc, _) => .ok doc

/-- The pipeline in explicit-CellType / type-inferred mode
(`writeStreamFile`): per column, either no declared type or a CellType. -/
def writeWorkbookCT (regs : List (String × List (Option CellType)))
    (data : List (List (List String))) : Except StreamError Document :=
  writeWorkbook (regs.map (fun r => (r.1, r.2.map CellHint.ofCT))) data

/-- The pipeline in column-metadata mode
(`writeStreamFileWithDefaultMetadata`). -/
def writeWorkbookMeta (regs : List (String × List (Option StreamingCellMetadata)))
    (data : List (List (List String))) : Except StreamError Document :=
  writeWorkbook (regs.map (fun r => (r.1, r.2.map CellHint.ofMeta))) data

/-- The sheet bodies the pipeline produces, before escaping: sheet `i`
carries `data[i]` rendered cell-by-cell, sheets beyond the data an empty
body. -/
def buildSheetsRaw : List SheetReg → List (List (List String)) →
    List (String × List (List (CellType × String)))
  | [], _ => []
  | r :: rs, [] => (r.1, []) :: buildSheetsRaw rs []
  | r :: rs, rows :: ds => (r.1, rows.map (renderRow r.2)) :: buildSheetsRaw rs ds

/-! ### FileSharing (embedded from src/v2/fileSharing.go) -/

/-- The exported file-sharing options record (fileSharing.go). -/
structure FileSharing where
  ReadOnlyRecommended : Bool
deriving DecidableEq

/-- The raw XML-level file-sharing element (target of the conversion). -/
structure xlsxFileSharing where
  ReadOnlyRecommended : Bool
deriving DecidableEq

/-- `FileSharing.makeXLSXFileSharing`: convert to the XML-level record. -/
def FileSharing.makeXLSXFileSharing (f : FileSharing) : xlsxFileSharing :=
  ⟨f.ReadOnlyRecommended⟩

/-- `FileSharing.fromXLSXFileSharing`: overwrite the receiver's field from
the XML-level record; the Go method mutates the receiver and returns a nil
error, modelled as the updated record paired with an always-`none` error. -/
def FileSharing.fromXLSXFileSharing (f : FileSharing) (source : xlsxFileSharing) :
    FileSharing × Option String :=
  ({ f with ReadOnlyRecommended := source.ReadOnlyRecommended }, none)

/-! ### Style registry lemmas -/

theorem firstIdx_eq_none {l : List Descriptor} {d : Descriptor} :
    firstIdx l d = none ↔ d ∉ l := by
  induction l with
  | nil => simp [firstIdx]
  | cons e es ih =>
    by_cases h : e = d
    · subst h; simp [firstIdx]
    · simp only [firstIdx, if_neg h, List.mem_cons]
      cases hfi : firstIdx es d <;> simp_all [Option.map]
      exact fun he => h he.symm

theorem firstIdx_append_of_some {l : List Descriptor} {d : Descriptor} {i : Nat}
    (h : firstIdx l d = some i) (l' : List Descriptor) :
    firstIdx (l ++ l') d = some i := by
  induction l generalizing i with
  | nil => simp [firstIdx] at h
  | cons e es ih =>
    by_cases he : e = d
    · subst he
      simp only [firstIdx, if_pos rfl] at h ⊢
      exact h
    · simp only [firstIdx, if_neg he, List.append_eq] at h ⊢
      cases hfi : firstIdx es d with
      | none => rw [hfi] at h; simp at h
      | some j =>
        rw [hfi] at h
        simp only [Option.map] at h
        rw [ih hfi]
        simpa using h

theorem firstIdx_append_self {l : List Descriptor} {d : Descriptor} (h : d ∉ l) :
    firstIdx (l ++ [d]) d = some l.length := by
  induction l with
  | nil => simp [firstIdx]
  | cons e es ih =>
    simp only [List.mem_cons, not_or] at h
    have he : e ≠ d := fun hedge => h.1 hedge.symm
    have hrec := ih h.2
    simp only [List.cons_append, firstIdx, if_neg he, List.append_eq] at hrec ⊢
    rw [hrec]
    rfl

theorem ensure_baseline (r : StyleRegistry) (d : Descriptor) :
    (r.ensure d).2.baseline = r.baseline := by
  simp only [StyleRegistry.ensure]
  cases firstIdx r.entries d <;> rfl

theorem ensure_entries (r : StyleRegistry) (d : Descriptor) :
    (r.ensure d).2.entries = r.entries ∨ (r.ensure d).2.entries = r.entries ++ [d] := by
  simp only [StyleRegistry.ensure]
  cases firstIdx r.entries d
  · right; rfl
  · left; rfl

theorem ensureAll_baseline (ds : List Descriptor) :
    ∀ r : StyleRegistry, (ensureAll r ds).baseline = r.baseline := by
  induction ds with
  | nil => intro r; rfl
  | cons d ds ih => intro r; rw [ensureAll, ih, ensure_baseline]

theorem firstIdx_ensureAll (ds : List Descriptor) :
    ∀ (r : StyleRegistry) (d : Descriptor) (i : Nat), firstIdx r.entries d = some i →
      firstIdx (ensureAll r ds).entries d = some i := by
  induction ds with
  | nil => intro r d i h; exact h
  | cons e ds ih =>
    intro r d i h
    rw [ensureAll]
    apply ih
    rcases ensure_entries r e with he | he <;> rw [he]
    · exact h
    · exact firstIdx_append_of_some h _

theorem ensure_firstIdx_self (r : StyleRegistry) (d : Descriptor) :
    firstIdx (r.ensure d).2.entries d = some ((r.ensure d).1 - r.baseline) ∧
      r.baseline ≤ (r.ensure d).1 := by
  simp only [StyleRegistry.ensure]
  cases hfi : firstIdx r.entries d with
  | some i => simp [hfi]
  | none =>
    constructor
    · have : d ∉ r.entries := firstIdx_eq_none.mp hfi
      simpa using firstIdx_append_self this
    · simp

theorem mem_ensureAll_entries (ds : List Descriptor) :
    ∀ (r : StyleRegistry) (e : Descriptor),
      e ∈ (ensureAll r ds).entries ↔ e ∈ r.entries ∨ e ∈ ds := by
  induction ds with
  | nil => intro r e; simp [ensureAll]
  | cons d ds ih =>
    intro r e
    rw [ensureAll, ih]
    cases hfi : firstIdx r.entries d with
    | some i =>
      have hd : d ∈ r.entries := by
        by_contra hmem
        rw [firstIdx_eq_none.mpr hmem] at hfi
        exact Option.noConfusion hfi
      simp only [StyleRegistry.ensure, hfi, List.mem_cons]
      constructor
      · rintro (h | h) <;> tauto
      · rintro (h | rfl | h)
        · tauto
        · exact Or.inl hd
        · tauto
    | none =>
      simp only [StyleRegistry.ensure, hfi, List.mem_append, List.mem_singleton, List.mem_cons]
      tauto

theorem nodup_ensureAll_entries (ds : List Descriptor) :
    ∀ r : StyleRegistry, r.entries.Nodup → (ensureAll r ds).entries.Nodup := by
  induction ds with
  | nil => intro r h; exact h
  | cons d ds ih =>
    intro r h
    rw [ensureAll]
    apply ih
    simp only [StyleRegistry.ensure]
    cases hfi : firstIdx r.entries d with
    | some i => exact h
    | none =>
      have : d ∉ r.entries := firstIdx_eq_none.mp hfi
      simp [List.nodup_append, h, this]

/-! ### Stream builder lemmas -/

theorem addSheet_ok {b : StreamFileBuilder} {name : String} {hints : List CellHint}
    {b' : StreamFileBuilder} (h : b.addSheet name hints = .ok b') :
    b.built = false ∧ name ∉ b.regs.map Prod.fst ∧
      b' = ⟨b.regs ++ [(name, hints)], false, b.emitted⟩ := by
  by_cases hb : b.built
  · simp [StreamFileBuilder.addSheet, hb] at h
  · by_cases hm : name ∈ b.regs.map Prod.fst
    · simp [StreamFileBuilder.addSheet, hb, hm] at h
    · simp only [StreamFileBuilder.addSheet, hb, if_false, Bool.false_eq_true, hm,
        if_neg hm, Except.ok.injEq] at h
      refine ⟨by simpa using hb, hm, ?_⟩
      cases b
      simp_all

theorem registerSheets_ok {rs : List SheetReg} :
    ∀ {b b' : StreamFileBuilder}, registerSheets b rs = .ok b' →
      b'.regs = b.regs ++ rs ∧ b'.built = b.built ∧ b'.emitted = b.emitted := by
  induction rs with
  | nil =>
    intro b b' h
    simp only [registerSheets, Except.ok.injEq] at h
    subst h; simp
  | cons r rs ih =>
    intro b b' h
    simp only [registerSheets] at h
    cases ha : b.addSheet r.1 r.2 with
    | error e => rw [ha] at h; exact absurd h (by simp)
    | ok b1 =>
      rw [ha] at h
      obtain ⟨hb, _, hb1⟩ := addSheet_ok ha
      obtain ⟨h1, h2, h3⟩ := ih h
      subst hb1
      simp only at h1 h2 h3
      exact ⟨by rw [h1]; simp, by rw [h2, hb], h3⟩

theorem registerSheets_ok_of_nodup {rs : List SheetReg} :
    ∀ {b : StreamFileBuilder}, b.built = false →
      ((b.regs.map Prod.fst) ++ rs.map Prod.fst).Nodup →
      registerSheets b rs = .ok ⟨b.regs ++ rs, false, b.emitted⟩ := by
  induction rs with
  | nil =>
    intro b hb _
    simp only [registerSheets, List.append_nil]
    cases b; simp_all
  | cons r rs ih =>
    intro b hb hnd
    have hm : r.1 ∉ b.regs.map Prod.fst := by
      intro hmem
      have : (r.1 :: rs.map Prod.fst).Nodup := (List.nodup_append.mp hnd).2.1
      have hdisj := (List.nodup_append.mp hnd).2.2
      exact hdisj hmem (by simp)
    have ha : b.addSheet r.1 r.2 = .ok ⟨b.regs ++ [(r.1, r.2)], false, b.emitted⟩ := by
      simp only [StreamFileBuilder.addSheet, hb, if_neg hm]
      cases b; simp_all
    simp only [registerSheets, ha]
    have hnd' : ((b.regs ++ [(r.1, r.2)]).map Prod.fst ++ rs.map Prod.fst).Nodup := by
      simp only [List.map_append, List.map_cons, List.map_nil]
      simpa using hnd
    have := @ih ⟨b.regs ++ [(r.1, r.2)], false, b.emitted⟩ rfl (by simpa using hnd')
    rw [this]
    simp

/-! ### Stream writer lemmas -/

theorem write_open (d : List (String × SheetState)) (reg : SheetReg) (st : SheetState)
    (tail : List (SheetReg × SheetState)) (row : List String) :
    StreamFile.write ⟨d, (reg, st) :: tail, false⟩ row =
      match st.colCount with
      | none =>
        .ok ⟨d, (reg, ⟨some row.length, st.rows ++ [renderRow reg.2 row], st.mergeCells⟩) :: tail,
             false⟩
      | some n =>
        if row.length = n then
          .ok ⟨d, (reg, ⟨some n, st.rows ++ [renderRow reg.2 row], st.mergeCells⟩) :: tail, false⟩
        else .error .wrongColumnCount := by
  simp [StreamFile.write]

theorem writeRows_ok {rows : List (List String)} :
    ∀ {d : List (String × SheetState)} {reg : SheetReg} {st : SheetState}
      {tail : List (SheetReg × SheetState)} {w' : StreamFile},
      writeRows ⟨d, (reg, st) :: tail, false⟩ rows = .ok w' →
      ∃ cnt, w' = ⟨d, (reg, ⟨cnt, st.rows ++ rows.map (renderRow reg.2), st.mergeCells⟩) :: tail,
                    false⟩ := by
  induction rows with
  | nil =>
    intro d reg st tail w' h
    simp only [writeRows, Except.ok.injEq] at h
    subst h
    exact ⟨st.colCount, by simp⟩
  | cons row rows ih =>
    intro d reg st tail w' h
    simp only [writeRows, write_open] at h
    cases hcc : st.colCount with
    | none =>
      rw [hcc] at h
      obtain ⟨cnt, hc⟩ := ih h
      exact ⟨cnt, by simpa [List.append_assoc] using hc⟩
    | some n =>
      simp only [hcc] at h
      by_cases hlen : row.length = n
      · simp only [if_pos hlen] at h
        obtain ⟨cnt, hc⟩ := ih h
        exact ⟨cnt, by simpa [List.append_assoc] using hc⟩
      · simp only [if_neg hlen] at h
        simp at h

theorem buildSheetsRaw_nil (rs : List SheetReg) :
    buildSheetsRaw rs [] = rs.map (fun r => (r.1, [])) := by
  induction rs with
  | nil => rfl
  | cons r rs ih => simp [buildSheetsRaw, ih]

theorem buildSheetsRaw_names (rs : List SheetReg) :
    ∀ data, (buildSheetsRaw rs data).map Prod.fst = rs.map Prod.fst := by
  induction rs with
  | nil => intro data; cases data <;> rfl
  | cons r rs ih => intro data; cases data <;> simp [buildSheetsRaw, ih]

theorem writeRest_ok {ds : List (List (List String))} :
    ∀ {d : List (String × SheetState)} {reg : SheetReg} {st : SheetState}
      {pending : List SheetReg} {w' : StreamFile},
      writeRest ⟨d, (reg, st) :: pending.map (fun r => (r, SheetState.init)), false⟩ ds = .ok w' →
      w'.allSheets.map (fun p => (p.1, p.2.rows)) =
        d.map (fun p => (p.1, p.2.rows)) ++ [(reg.1, st.rows)] ++ buildSheetsRaw pending ds := by
  induction ds with
  | nil =>
    intro d reg st pending w' h
    simp only [writeRest, Except.ok.injEq] at h
    subst h
    simp [StreamFile.allSheets, buildSheetsRaw_nil, List.map_map, Function.comp, SheetState.init]
  | cons rows ds ih =>
    intro d reg st pending w' h
    simp only [writeRest] at h
    cases pending with
    | nil => simp [StreamFile.nextSheet] at h
    | cons p ps =>
      have hns : StreamFile.nextSheet ⟨d, (reg, st) :: (p :: ps).map (fun r => (r, SheetState.init)), false⟩ =
          .ok ⟨d ++ [(reg.1, st)], (p, SheetState.init) :: ps.map (fun r => (r, SheetState.init)), false⟩ := by
        simp [StreamFile.nextSheet]
      simp only [hns] at h
      cases hwr : writeRows ⟨d ++ [(reg.1, st)], (p, SheetState.init) :: ps.map (fun r => (r, SheetState.init)), false⟩ rows with
      | error e => rw [hwr] at h; simp at h
      | ok w2 =>
        rw [hwr] at h
        obtain ⟨cnt, hw2⟩ := writeRows_ok hwr
        subst hw2
        have := ih h
        rw [this]
        simp [SheetState.init, buildSheetsRaw, List.append_assoc]

theorem writeAll_ok {regs : List SheetReg} {data : List (List (List String))}
    {w' : StreamFile}
    (h : writeAll ⟨[], regs.map (fun r => (r, SheetState.init)), false⟩ data = .ok w') :
    w'.allSheets.map (fun p => (p.1, p.2.rows)) = buildSheetsRaw regs data := by
  cases data with
  | nil =>
    simp only [writeAll, Except.ok.injEq] at h
    subst h
    simp [StreamFile.allSheets, buildSheetsRaw_nil, List.map_map, Function.comp, SheetState.init]
  | cons rows ds =>
    simp only [writeAll] at h
    cases regs with
    | nil =>
      cases rows with
      | nil =>
        have hwr : writeRows (⟨[], [], false⟩ : StreamFile) ([] : List (List String)) =
            .ok ⟨[], [], false⟩ := rfl
        rw [show ([] : List SheetReg).map (fun r => (r, SheetState.init)) = [] from rfl] at h
        rw [hwr] at h
        cases ds with
        | nil =>
          simp only [writeRest, Except.ok.injEq] at h
          subst h
          simp [StreamFile.allSheets, buildSheetsRaw]
        | cons d1 ds' => simp [writeRest, StreamFile.nextSheet] at h
      | cons v vs =>
        simp [writeRows, StreamFile.write] at h
    | cons r rs =>
      simp only [List.map_cons] at h
      cases hwr : writeRows ⟨[], (r, SheetState.init) :: rs.map (fun x => (x, SheetState.init)), false⟩ rows with
      | error e => rw [hwr] at h; exact absurd h (by simp)
      | ok w1 =>
        rw [hwr] at h
        obtain ⟨cnt, hw1⟩ := writeRows_ok hwr
        subst hw1
        have := writeRest_ok h
        rw [this]
        simp [SheetState.init, buildSheetsRaw]

theorem close_open {w : StreamFile} (hc : w.closed = false) :
    w.close = .ok (⟨w.allSheets.map (fun p => (p.1, escRows p.2.rows))⟩,
                   ⟨w.allSheets, [], true⟩) := by
  simp [StreamFile.close, hc]

theorem writeWorkbook_ok {regs : List SheetReg} {data : List (List (List String))}
    {doc : Document} (h : writeWorkbook regs data = .ok doc) :
    doc.sheets = (buildSheetsRaw regs data).map (fun p => (p.1, escRows p.2)) := by
  simp only [writeWorkbook] at h
  cases hr : registerSheets StreamFileBuilder.init regs with
  | error e => rw [hr] at h; simp at h
  | ok b =>
    simp only [hr] at h
    obtain ⟨h1, h2, h3⟩ := registerSheets_ok hr
    have hb : b = ⟨regs, false, []⟩ := by
      cases b; simp_all [StreamFileBuilder.init]
    subst hb
    have hbd : StreamFileBuilder.build ⟨regs, false, []⟩ =
        .ok (⟨[], regs.map (fun r => (r, SheetState.init)), false⟩, ⟨regs, true, []⟩) := by
      simp [StreamFileBuilder.build]
    simp only [hbd] at h
    cases hwa : writeAll ⟨[], regs.map (fun r => (r, SheetState.init)), false⟩ data with
    | error e => rw [hwa] at h; simp at h
    | ok w' =>
      simp only [hwa] at h
      have hsheets := writeAll_ok hwa
      cases hcl : w'.close with
      | error e => rw [hcl] at h; simp at h
      | ok pr =>
        obtain ⟨doc1, wfin⟩ := pr
        simp only [hcl] at h
        simp only [Except.ok.injEq] at h
        subst h
        simp only [StreamFile.close] at hcl
        by_cases hc : w'.closed
        · simp [hc] at hcl
        · simp only [hc, Bool.false_eq_true, if_false, Except.ok.injEq, Prod.mk.injEq] at hcl
          have hdoc : doc1 = ⟨w'.allSheets.map (fun p => (p.1, escRows p.2.rows))⟩ := hcl.1.symm
          rw [hdoc]
          have hmm : w'.allSheets.map (fun p => (p.1, escRows p.2.rows)) =
              (w'.allSheets.map (fun p => (p.1, p.2.rows))).map (fun q => (q.1, escRows q.2)) := by
            simp [List.map_map, Function.comp]
          rw [hmm, hsheets]

/-! ### Reader round-trip lemmas -/

theorem renderCell_ofCT_snd (h : Option CellType) (v : String) :
    (renderCell (CellHint.ofCT h) v).2 = v := by
  cases h with
  | none => cases hiv : isNumericString v <;> simp [CellHint.ofCT, renderCell, hiv]
  | some t => cases t <;> rfl

theorem renderRow_ofCT_snd (row : List String) :
    ∀ cts : List (Option CellType),
      (renderRow (cts.map CellHint.ofCT) row).map (fun c => c.2) = row := by
  induction row with
  | nil => intro cts; rfl
  | cons v vs ih =>
    intro cts
    have hhead : ((cts.map CellHint.ofCT).headD .infer) = CellHint.ofCT (cts.headD none) := by
      cases cts <;> rfl
    have htail : (cts.map CellHint.ofCT).tail = cts.tail.map CellHint.ofCT := by
      cases cts <;> rfl
    show (renderCell ((cts.map CellHint.ofCT).headD .infer) v ::
          renderRow (cts.map CellHint.ofCT).tail vs).map (fun c => c.2) = v :: vs
    rw [hhead, htail]
    simp only [List.map_cons, renderCell_ofCT_snd, List.cons.injEq]
    exact ⟨trivial, ih cts.tail⟩

theorem escUnescRows (hints : List (Option CellType)) (rows : List (List String)) :
    ((rows.map (renderRow (hints.map CellHint.ofCT))).map
        (fun rr => rr.map (fun c => (c.1, escapeXml c.2)))).map
        (fun rr => rr.map (fun c => unescapeXml c.2)) = rows := by
  induction rows with
  | nil => rfl
  | cons row rest ih =>
    simp only [List.map_cons, List.cons.injEq]
    refine ⟨?_, ih⟩
    rw [List.map_map]
    have hcomp : ((fun (c : CellType × String) => unescapeXml c.2) ∘
        (fun (c : CellType × String) => (c.1, escapeXml c.2))) =
        (fun (c : CellType × String) => unescapeXml (escapeXml c.2)) := rfl
    rw [hcomp]
    simp only [unescape_escape]
    exact renderRow_ofCT_snd row hints

theorem docValues_buildSheets (regs : List (String × List (Option CellType))) :
    ∀ data : List (List (List String)), regs.length = data.length →
      (buildSheetsRaw (regs.map (fun r => (r.1, r.2.map CellHint.ofCT))) data).map
        (fun p => (escRows p.2).map (fun r => r.map (fun c => unescapeXml c.2))) = data := by
  induction regs with
  | nil =>
    intro data hlen
    cases data with
    | nil => rfl
    | cons rows ds => simp at hlen
  | cons r rs ih =>
    intro data hlen
    cases data with
    | nil => simp at hlen
    | cons rows ds =>
      simp only [List.map_cons, buildSheetsRaw, List.cons.injEq]
      constructor
      · exact escUnescRows r.2 rows
      · exact ih ds (by simpa using hlen)

/-! ### Sheet-advance iteration and registration-retry helpers -/

/-- Iterate `nextSheet` the given number of times. -/
def iterNext : Nat → StreamFile → Except StreamError StreamFile
  | 0, w => .ok w
  | k + 1, w =>
    match w.nextSheet with
    | .error e => .error e
    | .ok w' => iterNext k w'

theorem iterNext_ok (k : Nat) :
    ∀ (d : List (String × SheetState)) (rest : List (SheetReg × SheetState)),
      k + 1 ≤ rest.length →
      iterNext k ⟨d, rest, false⟩ =
        .ok ⟨d ++ (rest.take k).map (fun p => (p.1.1, p.2)), rest.drop k, false⟩ := by
  induction k with
  | zero => intro d rest _; simp [iterNext]
  | succ k ih =>
    intro d rest hlen
    match rest, hlen with
    | p :: q :: tail, hlen =>
      have hns : StreamFile.nextSheet ⟨d, p :: q :: tail, false⟩ =
          .ok ⟨d ++ [(p.1.1, p.2)], q :: tail, false⟩ := by
        cases p
        simp [StreamFile.nextSheet]
      simp only [iterNext, hns]
      rw [ih (d ++ [(p.1.1, p.2)]) (q :: tail) (by simpa using hlen)]
      simp [List.append_assoc]
    | [p], hlen => simp at hlen
    | [], hlen => simp at hlen

theorem iterNext_snoc (k : Nat) :
    ∀ w : StreamFile, iterNext (k + 1) w =
      match iterNext k w with
      | .error e => .error e
      | .ok w' => w'.nextSheet := by
  induction k with
  | zero =>
    intro w
    cases hns : w.nextSheet with
    | error e => simp [iterNext, hns]
    | ok w1 => simp [iterNext, hns]
  | succ k ih =>
    intro w
    cases hns : w.nextSheet with
    | error e => simp [iterNext, hns]
    | ok w1 =>
      simp only [iterNext, hns]
      exact ih w1

/-- Apply a sequence of `addSheet` calls, keeping the builder unchanged on
each failed registration (as a caller that ignores errors would). -/
def addManySt (b : StreamFileBuilder) : List SheetReg → StreamFileBuilder
  | [] => b
  | r :: rs =>
    addManySt (match b.addSheet r.1 r.2 with
               | .ok b' => b'
               | .error _ => b) rs

theorem addManySt_invariant (rs : List SheetReg) :
    ∀ {b : StreamFileBuilder} {name : String}, b.built = false →
      name ∈ b.regs.map Prod.fst →
      (addManySt b rs).built = false ∧ name ∈ (addManySt b rs).regs.map Prod.fst ∧
        (addManySt b rs).emitted = b.emitted := by
  induction rs with
  | nil => intro b name hb hm; exact ⟨hb, hm, rfl⟩
  | cons r rs ih =>
    intro b name hb hm
    simp only [addManySt]
    cases ha : b.addSheet r.1 r.2 with
    | error e => exact ih hb hm
    | ok b1 =>
      obtain ⟨_, _, hb1⟩ := addSheet_ok ha
      subst hb1
      have := @ih ⟨b.regs ++ [(r.1, r.2)], false, b.emitted⟩ name rfl
        (by simp only [List.map_append]; exact List.mem_append_left _ hm)
      simpa using this

/-! ### Claim theorems -/

/-- C1: The Style Registry's `ensure` is idempotent and deterministic: a
fresh descriptor is assigned ID baseline + (count of distinct descriptors
already assigned) and is recorded; every later `ensure` of that descriptor,
after any interleaving of other `ensure` calls, returns that same ID and
leaves the registry unchanged; and running any descriptor sequence from the
initial registry (a pure, hence deterministic, computation) yields a final
style-table entry count of baseline plus the number of distinct descriptors
seen. -/
theorem styleRegistry_ensure_spec :
    (∀ (r : StyleRegistry) (d : Descriptor), d ∉ r.entries →
        r.ensure d = (r.baseline + r.entries.length, ⟨r.baseline, r.entries ++ [d]⟩)) ∧
    (∀ (r : StyleRegistry) (d : Descriptor) (ds : List Descriptor),
        (ensureAll (r.ensure d).2 ds).ensure d =
          ((r.ensure d).1, ensureAll (r.ensure d).2 ds)) ∧
    (∀ ds : List Descriptor,
        styleCount (ensureAll StyleRegistry.init ds) = initMaxStyleId + ds.toFinset.card) := by
  refine ⟨?_, ?_, ?_⟩
  · intro r d hmem
    have hfi : firstIdx r.entries d = none := firstIdx_eq_none.mpr hmem
    simp [StyleRegistry.ensure, hfi]
  · intro r d ds
    obtain ⟨hfi, hle⟩ := ensure_firstIdx_self r d
    have hb := ensure_baseline r d
    have hfi' := firstIdx_ensureAll ds (r.ensure d).2 d _ hfi
    have hball := ensureAll_baseline ds (r.ensure d).2
    set i := (r.ensure d).1 with hi
    set r' := (r.ensure d).2 with hr'
    have hopen : StyleRegistry.ensure (ensureAll r' ds) d =
        ((ensureAll r' ds).baseline + (i - r.baseline), ensureAll r' ds) := by
      unfold StyleRegistry.ensure
      simp only [hfi']
    rw [hopen, hball, hb]
    have harith : r.baseline + (i - r.baseline) = i := by omega
    rw [harith]
  · intro ds
    have hnd := nodup_ensureAll_entries ds StyleRegistry.init (by simp [StyleRegistry.init])
    have hfs : (ensureAll StyleRegistry.init ds).entries.toFinset = ds.toFinset := by
      ext e
      simp only [List.mem_toFinset]
      rw [mem_ensureAll_entries ds StyleRegistry.init e]
      simp [StyleRegistry.init]
    calc styleCount (ensureAll StyleRegistry.init ds)
        = (ensureAll StyleRegistry.init ds).baseline +
            (ensureAll StyleRegistry.init ds).entries.length := rfl
      _ = initMaxStyleId + (ensureAll StyleRegistry.init ds).entries.length := by
          rw [ensureAll_baseline]
          rfl
      _ = initMaxStyleId + ds.toFinset.card := by
          rw [← List.toFinset_card_of_nodup hnd, hfs]

/-- Witness for C1: in a registry with baseline 1 and no entries, the first
`ensure` of the numeric two-decimal descriptor assigns ID 1 and records it. -/
theorem styleRegistry_ensure_spec_witness :
    StyleRegistry.ensure ⟨1, []⟩ (CellType.numeric, "0.00") =
      (1, ⟨1, [(CellType.numeric, "0.00")]⟩) :=
  styleRegistry_ensure_spec.1 ⟨1, []⟩ (CellType.numeric, "0.00") (by simp)

/-- C10: `makeXLSXFileSharing` followed by `fromXLSXFileSharing` restores
the ReadOnlyRecommended field into any target, and `fromXLSXFileSharing`
never fails — it returns a nil error on every input. -/
theorem fileSharing_roundtrip :
    (∀ f g : FileSharing,
        (g.fromXLSXFileSharing f.makeXLSXFileSharing).1.ReadOnlyRecommended =
          f.ReadOnlyRecommended) ∧
    (∀ (g : FileSharing) (x : xlsxFileSharing), (g.fromXLSXFileSharing x).2 = none) :=
  ⟨fun _ _ => rfl, fun _ _ => rfl⟩

/-- C3: on the current sheet, once a column count `n` is established, a row
of exactly `n` cells is appended and any row of a different length fails
with WrongColumnCount (returning no new state); the first row written to a
fresh sheet establishes the count as its own length. -/
theorem write_column_count (d : List (String × SheetState)) (name : String)
    (hints : List CellHint) (st : SheetState) (tail : List (SheetReg × SheetState))
    (n : Nat) (hcc : st.colCount = some n) :
    (∀ row : List String, row.length = n →
        StreamFile.write ⟨d, ((name, hints), st) :: tail, false⟩ row =
          .ok ⟨d, ((name, hints),
                   ⟨some n, st.rows ++ [renderRow hints row], st.mergeCells⟩) :: tail, false⟩) ∧
    (∀ row : List String, row.length ≠ n →
        StreamFile.write ⟨d, ((name, hints), st) :: tail, false⟩ row =
          .error .wrongColumnCount) ∧
    (∀ row : List String,
        StreamFile.write ⟨d, ((name, hints), SheetState.init) :: tail, false⟩ row =
          .ok ⟨d, ((name, hints),
                   ⟨some row.length, [renderRow hints row], []⟩) :: tail, false⟩) := by
  refine ⟨?_, ?_, ?_⟩
  · intro row hrow
    simp [write_open, hcc, hrow]
  · intro row hrow
    simp [write_open, hcc, hrow]
  · intro row
    simp [write_open, SheetState.init]

/-- Witness for C3: with an established count of 2, a 2-cell row is
appended and a 1-cell row is rejected with WrongColumnCount. -/
theorem write_column_count_witness :
    (StreamFile.write ⟨[], (("Sheet1", []), ⟨some 2, [], []⟩) :: [], false⟩ ["a", "b"] =
      .ok ⟨[], (("Sheet1", []), ⟨some 2, [renderRow [] ["a", "b"]], []⟩) :: [], false⟩) ∧
    (StreamFile.write ⟨[], (("Sheet1", []), ⟨some 2, [], []⟩) :: [], false⟩ ["a"] =
      .error .wrongColumnCount) := by
  have h := write_column_count [] "Sheet1" [] ⟨some 2, [], []⟩ [] 2 rfl
  exact ⟨h.1 ["a", "b"] rfl, h.2.1 ["a"] (by decide)⟩

/-- C5: in any builder that is not yet built and already holds a sheet named
`name`, a second registration of `name` fails with DuplicateSheetName no
matter how many other registrations happen in between, and no bytes are
emitted by any of those registration calls. -/
theorem duplicate_sheet_name_rejected (b : StreamFileBuilder) (name : String)
    (hints : List CellHint) (rs : List SheetReg) (hb : b.built = false)
    (hmem : name ∈ b.regs.map Prod.fst) :
    (addManySt b rs).addSheet name hints = .error (.duplicateSheetName name) ∧
    (addManySt b rs).emitted = b.emitted := by
  obtain ⟨h1, h2, h3⟩ := addManySt_invariant rs hb hmem
  exact ⟨by simp [StreamFileBuilder.addSheet, h1, h2], h3⟩

/-- Witness for C5: after registering "Sheet 1" and then two other sheets,
registering "Sheet 1" again fails with DuplicateSheetName and the sink is
still empty. -/
theorem duplicate_sheet_name_rejected_witness :
    (addManySt ⟨[("Sheet 1", [])], false, []⟩
        [("Sheet 2", []), ("Sheet 3", [])]).addSheet "Sheet 1" [] =
      .error (.duplicateSheetName "Sheet 1") ∧
    (addManySt ⟨[("Sheet 1", [])], false, []⟩
        [("Sheet 2", []), ("Sheet 3", [])]).emitted = [] :=
  duplicate_sheet_name_rejected ⟨[("Sheet 1", [])], false, []⟩ "Sheet 1" []
    [("Sheet 2", []), ("Sheet 3", [])] rfl (by simp)

/-- C6: the Built state is absorbing and one-shot: once `build` succeeds,
every later `addSheet` and every later `build` on that builder fails with
BuilderAlreadyBuilt, and once a writer has been closed, closing it again
(or writing to it) fails with the already-finalized error. -/
theorem built_state_absorbing (b b' : StreamFileBuilder) (w : StreamFile)
    (hb : b.build = .ok (w, b')) :
    (∀ (name : String) (hints : List CellHint),
        b'.addSheet name hints = .error .builderAlreadyBuilt) ∧
    (b'.build = .error .builderAlreadyBuilt) ∧
    (∀ (doc : Document) (w1 : StreamFile), w.close = .ok (doc, w1) →
        w1.close = .error .alreadyClosed ∧
        ∀ row : List String, w1.write row = .error .alreadyClosed) := by
  have hb' : b'.built = true := by
    cases hbuilt : b.built with
    | true => simp [StreamFileBuilder.build, hbuilt] at hb
    | false =>
      simp only [StreamFileBuilder.build, hbuilt, Bool.false_eq_true, if_false,
        Except.ok.injEq, Prod.mk.injEq] at hb
      rw [← hb.2]
  refine ⟨?_, ?_, ?_⟩
  · intro name hints
    simp [StreamFileBuilder.addSheet, hb']
  · simp [StreamFileBuilder.build, hb']
  · intro doc w1 hcl
    have hw1 : w1.closed = true := by
      cases hc : w.closed with
      | true => simp [StreamFile.close, hc] at hcl
      | false =>
        rw [close_open hc] at hcl
        simp only [Except.ok.injEq, Prod.mk.injEq] at hcl
        rw [← hcl.2]
    exact ⟨by simp [StreamFile.close, hw1],
           fun row => by simp [StreamFile.write, hw1]⟩

/-- Witness for C6: build a one-sheet builder, then observe that addSheet
and build fail on the built builder, and that a second close fails on the
closed writer. -/
theorem built_state_absorbing_witness :
    (StreamFileBuilder.addSheet ⟨[("Sheet1", [])], true, []⟩ "Sheet2" [] =
      .error .builderAlreadyBuilt) ∧
    (StreamFileBuilder.build ⟨[("Sheet1", [])], true, []⟩ = .error .builderAlreadyBuilt) ∧
    (StreamFile.close ⟨[("Sheet1", SheetState.init)], [], true⟩ = .error .alreadyClosed) := by
  have h := built_state_absorbing ⟨[("Sheet1", [])], false, []⟩ ⟨[("Sheet1", [])], true, []⟩
      ⟨[], [(("Sheet1", []), SheetState.init)], false⟩ rfl
  exact ⟨h.1 "Sheet2" [], h.2.1,
         (h.2.2 ⟨[("Sheet1", [])]⟩ ⟨[("Sheet1", SheetState.init)], [], true⟩ rfl).1⟩

/-- C8: `addMergeCells` always succeeds, appending exactly one recorded
range to the current sheet with no validation against written rows; the
range is encoded with one-based letter columns and one-based row numbers,
so `addMergeCells(1,1,2,3)` records exactly "B2:D3". -/
theorem merge_cells_encoding :
    (∀ (d : List (String × SheetState)) (reg : SheetReg) (st : SheetState)
        (tail : List (SheetReg × SheetState)) (cl : Bool) (r1 c1 r2 c2 : Nat),
        StreamFile.addMergeCells ⟨d, (reg, st) :: tail, cl⟩ r1 c1 r2 c2 =
          ⟨d, (reg, ⟨st.colCount, st.rows,
                     st.mergeCells ++ [mergeRangeRef r1 c1 r2 c2]⟩) :: tail, cl⟩) ∧
    mergeRangeRef 1 1 2 3 = "B2:D3" ∧
    (∀ r1 c1 r2 c2 : Nat, mergeRangeRef r1 c1 r2 c2 =
        colLetters c1 ++ toString (r1 + 1) ++ ":" ++ (colLetters c2 ++ toString (r2 + 1))) ∧
    colLetters 0 = "A" ∧ colLetters 25 = "Z" ∧ colLetters 26 = "AA" := by
  refine ⟨fun d reg st tail cl r1 c1 r2 c2 => rfl, by decide, ?_, by decide, by decide, by decide⟩
  intro r1 c1 r2 c2
  show cellRef r1 c1 ++ ":" ++ cellRef r2 c2 = _
  simp [cellRef, String.append_assoc]

/-- C4: a writer built over N ≥ 1 registered sheets starts on the first
sheet; for every k with k+1 ≤ N, k successive `nextSheet` calls succeed,
each moving forward exactly one registered sheet (the first k sheets become
immutable, the rest remain ahead, in order); the N-th attempted advance
fails with AlreadyOnLastSheet. -/
theorem nextSheet_advances (b : StreamFileBuilder) (N : Nat) (w : StreamFile)
    (b' : StreamFileBuilder) (hb : b.build = .ok (w, b')) (hN : b.regs.length = N)
    (h1 : 1 ≤ N) :
    (∀ k, k + 1 ≤ N →
        iterNext k w = .ok ⟨(b.regs.take k).map (fun r => (r.1, SheetState.init)),
                            (b.regs.drop k).map (fun r => (r, SheetState.init)), false⟩) ∧
    iterNext N w = .error .alreadyOnLastSheet := by
  have hw : w = ⟨[], b.regs.map (fun r => (r, SheetState.init)), false⟩ := by
    cases hbuilt : b.built with
    | true => simp [StreamFileBuilder.build, hbuilt] at hb
    | false =>
      simp only [StreamFileBuilder.build, hbuilt, Bool.false_eq_true, if_false,
        Except.ok.injEq, Prod.mk.injEq] at hb
      exact hb.1.symm
  have hrest : (b.regs.map (fun r => (r, SheetState.init))).length = N := by
    simp [hN]
  constructor
  · intro k hk
    rw [hw, iterNext_ok k [] _ (by rw [hrest]; exact hk)]
    simp only [List.nil_append, List.map_take, List.map_drop, List.map_map, Function.comp]
    rfl
  · obtain ⟨N', rfl⟩ : ∃ N', N = N' + 1 := ⟨N - 1, by omega⟩
    rw [hw, iterNext_snoc N']
    rw [iterNext_ok N' [] _ (by rw [hrest])]
    have hlen1 : ((b.regs.map (fun r => (r, SheetState.init))).drop N').length = 1 := by
      rw [List.length_drop, hrest]
      omega
    obtain ⟨a, ha⟩ := List.length_eq_one.mp hlen1
    show StreamFile.nextSheet ⟨[] ++ _, (b.regs.map (fun r => (r, SheetState.init))).drop N',
        false⟩ = .error .alreadyOnLastSheet
    rw [ha]
    simp [StreamFile.nextSheet]

/-- Witness for C4: with two registered sheets, one advance succeeds and a
second advance fails with AlreadyOnLastSheet. -/
theorem nextSheet_advances_witness :
    iterNext 1 ⟨[], [(("A", []), SheetState.init), (("B", []), SheetState.init)], false⟩ =
      .ok ⟨[("A", SheetState.init)], [(("B", []), SheetState.init)], false⟩ ∧
    iterNext 2 ⟨[], [(("A", []), SheetState.init), (("B", []), SheetState.init)], false⟩ =
      .error .alreadyOnLastSheet := by
  have h := nextSheet_advances ⟨[("A", []), ("B", [])], false, []⟩ 2
      ⟨[], [(("A", []), SheetState.init), (("B", []), SheetState.init)], false⟩
      ⟨[("A", []), ("B", [])], true, []⟩ rfl rfl (by decide)
  exact ⟨h.1 1 (by decide), h.2⟩

/-- Closing a writer with nothing written to any sheet succeeds, producing
every registered sheet with an empty body. -/
theorem writeWorkbookCT_nil (regs : List (String × List (Option CellType)))
    (hnd : (regs.map Prod.fst).Nodup) :
    writeWorkbookCT regs [] = .ok ⟨regs.map (fun r => (r.1, []))⟩ := by
  have hnd' : ((StreamFileBuilder.init.regs.map Prod.fst) ++
      (regs.map (fun r => (r.1, r.2.map CellHint.ofCT))).map Prod.fst).Nodup := by
    simp only [StreamFileBuilder.init, List.map_nil, List.nil_append, List.map_map]
    exact hnd
  have hreg := @registerSheets_ok_of_nodup
      (regs.map (fun r => (r.1, r.2.map CellHint.ofCT))) StreamFileBuilder.init rfl hnd'
  show writeWorkbook (regs.map (fun r => (r.1, r.2.map CellHint.ofCT))) [] = _
  simp only [writeWorkbook, hreg]
  simp only [StreamFileBuilder.init, List.nil_append]
  have hbd : StreamFileBuilder.build
      ⟨regs.map (fun r => (r.1, r.2.map CellHint.ofCT)), false, []⟩ =
      .ok (⟨[], (regs.map (fun r => (r.1, r.2.map CellHint.ofCT))).map
                  (fun r => (r, SheetState.init)), false⟩,
           ⟨regs.map (fun r => (r.1, r.2.map CellHint.ofCT)), true, []⟩) := by
    simp [StreamFileBuilder.build]
  simp only [hbd, writeAll]
  rw [close_open rfl]
  simp [StreamFile.allSheets, escRows, List.map_map, Function.comp, SheetState.init]

/-- Position-wise shape of the pipeline's sheet bodies: a registered sheet
whose data is empty or missing gets an empty body at its own position. -/
theorem buildSheetsRaw_getElem_empty :
    ∀ (rs : List SheetReg) (data : List (List (List String))) (i : Nat),
      i < rs.length → data[i]?.getD [] = [] →
      (buildSheetsRaw rs data)[i]? =
        (rs[i]?).map (fun r => (r.1, ([] : List (List (CellType × String))))) := by
  intro rs
  induction rs with
  | nil => intro data i hi _; simp at hi
  | cons r rs ih =>
    intro data i hi hdz
    cases data with
    | nil =>
      cases i with
      | zero => simp [buildSheetsRaw]
      | succ i =>
        simp only [buildSheetsRaw, List.getElem?_cons_succ]
        exact ih [] i (by simpa using hi) (by simp)
    | cons rows ds =>
      cases i with
      | zero =>
        have hrows : rows = [] := by simpa using hdz
        subst hrows
        simp [buildSheetsRaw]
      | succ i =>
        simp only [buildSheetsRaw, List.getElem?_cons_succ]
        exact ih ds i (by simpa using hi) (by simpa using hdz)

/-- C9: for every successful build-write-close run, the document carries
every registered sheet's name in registration order, and every registered
sheet to which zero rows were written — whether its data entry is empty or
the sheet was never reached at all, even while other sheets did receive
rows — still appears at its own position under its registered name with an
empty body and zero rows on read-back; moreover closing a writer with
nothing written to any sheet succeeds outright. -/
theorem empty_sheets_persist (regs : List (String × List (Option CellType)))
    (data : List (List (List String))) (doc : Document)
    (hok : writeWorkbookCT regs data = .ok doc) :
    docSheetNames doc = regs.map Prod.fst ∧
    (∀ i, i < regs.length → data[i]?.getD [] = [] →
        doc.sheets[i]? = (regs[i]?).map
          (fun r => (r.1, ([] : List (List (CellType × String))))) ∧
        (docValues doc)[i]? = some []) ∧
    ((regs.map Prod.fst).Nodup →
        writeWorkbookCT regs [] = .ok ⟨regs.map (fun r => (r.1, []))⟩) := by
  have hs : doc.sheets =
      (buildSheetsRaw (regs.map (fun r => (r.1, r.2.map CellHint.ofCT))) data).map
        (fun p => (p.1, escRows p.2)) := writeWorkbook_ok hok
  refine ⟨?_, ?_, writeWorkbookCT_nil regs⟩
  · show doc.sheets.map Prod.fst = regs.map Prod.fst
    rw [hs, List.map_map,
      show (Prod.fst ∘ fun (p : String × List (List (CellType × String))) =>
          (p.1, escRows p.2)) = Prod.fst from funext (fun _ => rfl),
      buildSheetsRaw_names, List.map_map]
    rfl
  · intro i hi hdz
    have hb := buildSheetsRaw_getElem_empty
        (regs.map (fun r => (r.1, r.2.map CellHint.ofCT))) data i (by simpa using hi) hdz
    rw [List.getElem?_map] at hb
    constructor
    · rw [hs, List.getElem?_map, hb]
      cases regs[i]? <;> rfl
    · show (doc.sheets.map
          (fun s => s.2.map (fun rr => rr.map (fun c => unescapeXml c.2))))[i]? = some []
      rw [List.getElem?_map, hs, List.getElem?_map, hb]
      rw [List.getElem?_eq_getElem hi]
      rfl

/-- The document produced by the C9 witness workbook: one row written to
sheet "A", nothing ever written to sheet "B". -/
def c9doc : Document :=
  ((writeWorkbookCT [("A", []), ("B", [])] [[["x"]]]).toOption).getD ⟨[]⟩

/-- Witness for C9: in the mixed workbook (sheet "A" gets a row, sheet "B"
gets none) sheet "B" still reads back, by name at its own position, with
zero rows; and the all-empty two-sheet workbook closes successfully. -/
theorem empty_sheets_persist_witness :
    docSheetNames c9doc = ["A", "B"] ∧
    (c9doc.sheets[1]? = some ("B", []) ∧ (docValues c9doc)[1]? = some []) ∧
    writeWorkbookCT [("A", []), ("B", [])] [] = .ok ⟨[("A", []), ("B", [])]⟩ := by
  have h := empty_sheets_persist [("A", []), ("B", [])] [[["x"]]] c9doc rfl
  exact ⟨h.1, h.2.1 1 (by decide) rfl, h.2.2 (by decide)⟩

/-- C2: the full write-then-read round trip in explicit-CellType /
type-inferred mode: for any sheet registrations (with or without declared
column types) and per-sheet row data covering every registered sheet, a
successful build-write-close run produces a document from which the reader
recovers exactly the registered sheet names in order and the identical
nested sequence of raw string values — XML-structural cell text included,
since cell text is escaped on write and unescaped on read. -/
theorem stream_roundtrip (regs : List (String × List (Option CellType)))
    (data : List (List (List String))) (doc : Document)
    (hlen : regs.length = data.length)
    (hok : writeWorkbookCT regs data = .ok doc) :
    docSheetNames doc = regs.map Prod.fst ∧ docValues doc = data := by
  have hs : doc.sheets =
      (buildSheetsRaw (regs.map (fun r => (r.1, r.2.map CellHint.ofCT))) data).map
        (fun p => (p.1, escRows p.2)) := writeWorkbook_ok hok
  constructor
  · show doc.sheets.map Prod.fst = regs.map Prod.fst
    rw [hs, List.map_map,
      show (Prod.fst ∘ fun (p : String × List (List (CellType × String))) =>
          (p.1, escRows p.2)) = Prod.fst from funext (fun _ => rfl),
      buildSheetsRaw_names, List.map_map]
    rfl
  · show doc.sheets.map (fun s => s.2.map (fun r => r.map (fun c => unescapeXml c.2))) = data
    rw [hs, List.map_map]
    have hcomp : ((fun (s : String × List (List (CellType × String))) =>
          s.2.map (fun r => r.map (fun c => unescapeXml c.2))) ∘
        (fun p => (p.1, escRows p.2))) =
        (fun (p : String × List (List (CellType × String))) =>
          (escRows p.2).map (fun r => r.map (fun c => unescapeXml c.2))) :=
      funext (fun _ => rfl)
    rw [hcomp]
    exact docValues_buildSheets regs data hlen

/-- Registrations of the C2 witness workbook: one sheet, two columns typed
String, two untyped (inferred). -/
def c2regs : List (String × List (Option CellType)) :=
  [("Sheet1", [none, some CellType.str, none, some CellType.str])]

/-- Row data of the C2 witness workbook; one cell is literal XML-structural
text (a closing sheetData tag). -/
def c2data : List (List (List String)) :=
  [[["Token", "</sheetData>", "Price", "SKU"],
    ["123", "Taco", "300", "0000000123"]]]

/-- The document produced by the C2 witness workbook. -/
def c2doc : Document := ((writeWorkbookCT c2regs c2data).toOption).getD ⟨[]⟩

/-- Witness for C2: the concrete workbook writes successfully and reads back
its sheet name and raw values, including the literal "</sheetData>" cell. -/
theorem stream_roundtrip_witness :
    docSheetNames c2doc = c2regs.map Prod.fst ∧ docValues c2doc = c2data :=
  stream_roundtrip c2regs c2data c2doc rfl rfl

/-- Index-wise reading of a rendered row: cell `i` is the rendering of raw
value `i` under column hint `i` alone — cells do not affect one another. -/
theorem renderRow_getElem (row : List String) :
    ∀ (hints : List CellHint) (i : Nat),
      (renderRow hints row)[i]? =
        (row[i]?).map (fun v => renderCell (hints.getD i .infer) v) := by
  induction row with
  | nil => intro hints i; simp [renderRow]
  | cons v vs ih =>
    intro hints i
    cases i with
    | zero =>
      show (renderCell (hints.headD .infer) v :: renderRow hints.tail vs)[0]? = _
      simp only [List.getElem?_cons_zero, Option.map_some']
      rw [show hints.getD 0 CellHint.infer = hints.headD CellHint.infer from by
        cases hints <;> rfl]
    | succ i =>
      have ht : hints.getD (i + 1) CellHint.infer = hints.tail.getD i CellHint.infer := by
        cases hints <;> simp [List.getD]
      show (renderCell (hints.headD .infer) v :: renderRow hints.tail vs)[i + 1]? = _
      simp only [List.getElem?_cons_succ, ht]
      exact ih hints.tail i

/-- Registrations of the C7 workbook: the "One Sheet" metadata test case —
columns String, String, Decimal, String. -/
def c7regs : List (String × List (Option StreamingCellMetadata)) :=
  [("Sheet1", [some DefaultStringStreamingCellMetadata, some DefaultStringStreamingCellMetadata,
               some DefaultDecimalStreamingCellMetadata, some DefaultStringStreamingCellMetadata])]

/-- Row data of the C7 workbook: the Decimal column gets a numeric value and
a non-numeric value. -/
def c7data : List (List (List String)) :=
  [[["Token", "Name", "Price", "SKU"],
    ["123", "Taco", "300.0", "0000000123"],
    ["123", "Taco", "string", "0000000123"]]]

/-- Values the C7 workbook reads back: "300.0" re-rendered as "300.00", the
non-numeric "string" unchanged. -/
def c7expected : List (List (List String)) :=
  [[["Token", "Name", "Price", "SKU"],
    ["123", "Taco", "300.00", "0000000123"],
    ["123", "Taco", "string", "0000000123"]]]

/-- The document produced by the C7 workbook. -/
def c7doc : Document := ((writeWorkbookMeta c7regs c7data).toOption).getD ⟨[]⟩

/-- C7: in a Decimal-declared column, a cell whose raw value parses as a
number is re-rendered at the fixed two-decimal precision and tagged
Numeric, while a non-parsing cell falls back to Inline-String with its raw
value unchanged; rendering is cell-by-cell (cell `i` depends only on raw
value `i` and hint `i`), so other cells are unaffected; the concrete
metadata workbook writes without error and reads back "300.00" for input
"300.0" and "string" unchanged, with exactly that one cell Numeric. -/
theorem decimal_column_fallback :
    (∀ v : String, renderCell (.meta DefaultDecimalStreamingCellMetadata) v =
        if isNumericString v then (CellType.numeric, renderFixed2 v)
        else (CellType.inline, v)) ∧
    (∀ (hints : List CellHint) (row : List String) (i : Nat),
        (renderRow hints row)[i]? =
          (row[i]?).map (fun v => renderCell (hints.getD i .infer) v)) ∧
    writeWorkbookMeta c7regs c7data = .ok c7doc ∧
    docValues c7doc = c7expected ∧
    docTypes c7doc = [[[CellType.inline, CellType.inline, CellType.inline, CellType.inline],
                       [CellType.inline, CellType.inline, CellType.numeric, CellType.inline],
                       [CellType.inline, CellType.inline, CellType.inline, CellType.inline]]] ∧
    renderFixed2 "300.0" = "300.00" := by
  refine ⟨fun v => rfl, fun hints row i => renderRow_getElem row hints i, rfl, ?_, ?_, rfl⟩
  · rfl
  · rfl
